import Mathlib

/-!
Verification of the stochastic evaluation system's core
(`src/DynamicStochasticSystem.tsx`): gap classification
(`analyzeMissingType`), Pearson correlation (`calculateCorrelation`),
the imputation pass of `handleRunAlgorithm`, and the scoring /
ranking pass (`recalcScores`).

Modelling conventions:
* JavaScript numbers are idealized as exact rationals `ℚ` (the claims
  under study are about exact algebraic identities, guards and ranges,
  not float rounding).
* A student's score matrix is a function `ℕ → ℕ → Option ℚ`;
  `Option.none` is the JS `null` (absent cell).  Time slots and
  subjects are addressed by their position in the declared lists, which
  is exactly how the source iterates them.
* `Math.random()` draws are modelled by an injected stream
  `rand : ℕ → ℚ` consumed at an explicit counter, and the Box-Muller
  sampler by an injected `normal : ℕ → ℚ → ℚ → ℚ` taking the counter,
  the cross-sectional mean and the cross-sectional dispersion (the
  source passes the square root of the dispersion; that square root is
  absorbed into the abstract sampler, which no claim inspects).
* `Array.prototype.sort` with comparator `(a, b) => b.finalScore -
  a.finalScore` is a stable descending sort, modelled by
  `List.mergeSort` with `b.finalScore ≤ a.finalScore`.
-/

namespace StochEval

/-- A score matrix: time-slot index → subject index → cell.  `none` is
the JS `null` (absent). -/
abbrev Mat : Type := ℕ → ℕ → Option ℚ

/-- Time slot configuration (only the weight matters for the core). -/
structure TimeSlot where
  weight : ℚ

/-- Subject configuration: weight and full marks (`full` in the source). -/
structure Subject where
  weight : ℚ
  full : ℚ

/-- A student record: score matrix plus the aggregated final score. -/
structure Student where
  data : Mat
  finalScore : ℚ

/-- Result of `analyzeMissingType`. -/
inductive MissingType
  | none
  | discrete
  | continuous
deriving DecidableEq, Repr

/-- The algorithm selector (`AlgorithmType` in the source). -/
inductive Alg
  | boxMuller
  | regression
  | knn
deriving DecidableEq, Repr

/-- Method tags recorded for an imputed cell.  `interp` is the source's
"时序插值" (temporal interpolation), `regressionVia r` is "回归(<ref>)",
`meanFill` is "均值填充", `nearest` is "KNN(最近邻)", `normalDraw` is
"Box-Muller". -/
inductive Method
  | interp
  | regressionVia (r : ℕ)
  | meanFill
  | nearest
  | normalDraw
deriving DecidableEq, Repr

/-- JS `Math.round`: round half toward +∞, i.e. `⌊x + 0.5⌋`. -/
def jsRound (q : ℚ) : ℤ := ⌊q + 1 / 2⌋

/-- Source line `Math.max(0, Math.min(sub.full, Math.round(imputedVal)))`. -/
def clampTo (full v : ℚ) : ℚ := max 0 (min full ((jsRound v : ℤ) : ℚ))

/-- Functional update of one cell of a matrix. -/
def updateM (m : Mat) (t s : ℕ) (v : Option ℚ) : Mat :=
  fun t' s' => if t' = t ∧ s' = s then v else m t' s'

/-- Backward scan of `analyzeMissingType`: number of consecutive absent
cells at indices `t-1, t-2, …` (the `while (i >= 0 && … === null)` loop). -/
def missingBack (snap : Mat) (s : ℕ) : ℕ → ℕ
  | 0 => 0
  | i + 1 => if (snap i s).isNone then missingBack snap s i + 1 else 0

/-- Forward scan worker: counts consecutive absent cells starting at `j`,
with `fuel` remaining positions before the end of the sequence. -/
def missingFwdAux (snap : Mat) (s : ℕ) : ℕ → ℕ → ℕ
  | _, 0 => 0
  | j, fuel + 1 => if (snap j s).isNone then missingFwdAux snap s (j + 1) fuel + 1 else 0

/-- Forward scan of `analyzeMissingType`: consecutive absent cells at
indices `j, j+1, …, nT-1` (the `while (j < timeSlots.length && …)` loop). -/
def missingFwd (snap : Mat) (s nT j : ℕ) : ℕ := missingFwdAux snap s j (nT - j)

/-- Source `missingLen`: the maximal run of absent cells through
index `t` (starts at 1 for the cell itself). -/
def runLen (snap : Mat) (t s nT : ℕ) : ℕ :=
  1 + missingBack snap s t + missingFwd snap s nT (t + 1)

/-- Source `analyzeMissingType(studentData, timeIdx, subId, timeSlots)`:
`none` when the cell is present; otherwise `continuous` when
`missingLen > 2 || isEdge` where `isEdge ⟺ timeIdx = 0 ∨
timeIdx = timeSlots.length - 1`; otherwise `discrete`. -/
def analyzeMissingType (snap : Mat) (t s nT : ℕ) : MissingType :=
  if (snap t s).isSome then .none
  else if 2 < runLen snap t s nT ∨ t = 0 ∨ t = nT - 1 then .continuous
  else .discrete

/-- Source `validPairs` of `calculateCorrelation`: students with both subjects
present at the given time slot. -/
def validPairs (cohort : List Student) (a b t : ℕ) : List (ℚ × ℚ) :=
  cohort.filterMap fun st =>
    match st.data t a, st.data t b with
    | some x, some y => some (x, y)
    | _, _ => Option.none

/-- Source `meanA` of `calculateCorrelation`. -/
def corrMeanA (cohort : List Student) (a b t : ℕ) : ℚ :=
  ((validPairs cohort a b t).map Prod.fst).sum / ((validPairs cohort a b t).length : ℚ)

/-- Source `meanB` of `calculateCorrelation`. -/
def corrMeanB (cohort : List Student) (a b t : ℕ) : ℚ :=
  ((validPairs cohort a b t).map Prod.snd).sum / ((validPairs cohort a b t).length : ℚ)

/-- Source `num` of `calculateCorrelation`. -/
def corrNum (cohort : List Student) (a b t : ℕ) : ℚ :=
  ((validPairs cohort a b t).map fun p =>
    (p.1 - corrMeanA cohort a b t) * (p.2 - corrMeanB cohort a b t)).sum

/-- Source `denA` of `calculateCorrelation`. -/
def corrDenA (cohort : List Student) (a b t : ℕ) : ℚ :=
  ((validPairs cohort a b t).map fun p => (p.1 - corrMeanA cohort a b t) ^ 2).sum

/-- Source `denB` of `calculateCorrelation`. -/
def corrDenB (cohort : List Student) (a b t : ℕ) : ℚ :=
  ((validPairs cohort a b t).map fun p => (p.2 - corrMeanB cohort a b t) ^ 2).sum

/-- Source `calculateCorrelation(data, subA, subB, timeId)`: returns 0 for
fewer than 3 valid pairs, 0 when either deviation sum is 0, and
otherwise `num / Math.sqrt(denA * denB)`. -/
noncomputable def calculateCorrelation (cohort : List Student) (a b t : ℕ) : ℝ :=
  if (validPairs cohort a b t).length < 3 then 0
  else if corrDenA cohort a b t = 0 ∨ corrDenB cohort a b t = 0 then 0
  else (corrNum cohort a b t : ℝ) /
    Real.sqrt ((corrDenA cohort a b t : ℝ) * (corrDenB cohort a b t : ℝ))

/-- Source `validVals` of the imputation pass: the cohort's present values for
one (time slot, subject), read from the pre-pass snapshots. -/
def crossVals (cohort : List Student) (t s : ℕ) : List ℚ :=
  cohort.filterMap fun st => st.data t s

/-- Source `mean` of the imputation pass: `validVals.reduce(+) /
(validVals.length || 1)`. -/
def crossMean (cohort : List Student) (t s : ℕ) : ℚ :=
  (crossVals cohort t s).sum /
    (if (crossVals cohort t s).length = 0 then (1 : ℚ) else ((crossVals cohort t s).length : ℚ))

/-- The cross-sectional dispersion `Σ (v - mean)² / (validVals.length || 1)`
(the source takes its square root to get `std`; the square root is
absorbed into the abstract `normal` sampler). -/
def crossVarRaw (cohort : List Student) (t s : ℕ) : ℚ :=
  ((crossVals cohort t s).map fun v => (v - crossMean cohort t s) ^ 2).sum /
    (if (crossVals cohort t s).length = 0 then (1 : ℚ) else ((crossVals cohort t s).length : ℚ))

/-- Source `prev` of the discrete fast path: `tIdx > 0 ? newData[tIdx-1][sub] : null`,
read from the working copy. -/
def prevNeighbor (work : Mat) (t s : ℕ) : Option ℚ :=
  if 0 < t then work (t - 1) s else Option.none

/-- Source `next` of the discrete fast path:
`tIdx < timeSlots.length - 1 ? newData[tIdx+1][sub] : null`. -/
def nextNeighbor (work : Mat) (t s nT : ℕ) : Option ℚ :=
  if t < nT - 1 then work (t + 1) s else Option.none

/-- Source `subjects.find(s => s.id !== sub.id && newData[time.id][s.id] !== null)`:
the first other subject with a present value in the working copy. -/
def findRefSub (work : Mat) (t s nS : ℕ) : Option ℕ :=
  (List.range nS).find? fun j => j != s && (work t j).isSome

/-- Source `refMean` of the regression branch: the sum of the cohort's present
reference values divided by `students.length` (the whole cohort size,
not the number of present values). -/
def refMeanCode (cohort : List Student) (t r : ℕ) : ℚ :=
  (crossVals cohort t r).sum / (cohort.length : ℚ)

/-- Inner loop of the K-NN branch: squared Euclidean distance and
dimension count over the other subjects present in both the working
copy and the candidate's snapshot. -/
def knnScan (work other : Mat) (t s nS : ℕ) : ℚ × ℕ :=
  (List.range nS).foldl
    (fun acc j =>
      if j = s then acc
      else
        match work t j, other t j with
        | some v1, some v2 => (acc.1 + (v1 - v2) ^ 2, acc.2 + 1)
        | _, _ => acc)
    (0, 0)

/-- The K-NN candidate fold: skips the current student and students
missing the target cell; among candidates with at least one shared
dimension keeps the first minimum.  The source compares
`Math.sqrt`-ed distances; squared distances compare identically, so the
model tracks the squared distance (`Option.none` is the initial
`Infinity`). -/
def knnPick (cohort : List Student) (selfIdx : ℕ) (work : Mat) (t s nS : ℕ) (mean : ℚ) : ℚ :=
  (cohort.enum.foldl
    (fun (acc : Option ℚ × ℚ) p =>
      if p.1 = selfIdx then acc
      else
        match p.2.data t s with
        | Option.none => acc
        | some nv =>
          let dc := knnScan work p.2.data t s nS
          if 0 < dc.2 then
            match acc.1 with
            | Option.none => (some dc.1, nv)
            | some best => if dc.1 < best then (some dc.1, nv) else acc
          else acc)
    (Option.none, mean)).2

/-- Outcome of resolving one missing cell: the value before rounding
and clamping, the method tag, the (possibly degraded) gap type, and the
next random-stream index. -/
structure ImpOut where
  raw : ℚ
  method : Method
  gapType : MissingType
  next : ℕ

/-- The `method === ''` branch of the pass: the configured estimator
over the cohort cross-section (regression / K-NN / Box-Muller), with
the mean-fill fallback when regression finds no reference subject. -/
def estimate (cohort : List Student) (selfIdx : ℕ) (work : Mat) (nS : ℕ)
    (algo : Alg) (normal : ℕ → ℚ → ℚ → ℚ) (t s k : ℕ) : ImpOut :=
  match algo with
  | .regression =>
    match findRefSub work t s nS with
    | some r =>
      ⟨((work t r).getD 0) *
        (crossMean cohort t s /
          (if refMeanCode cohort t r = 0 then 1 else refMeanCode cohort t r)),
       .regressionVia r, .continuous, k⟩
    | Option.none => ⟨crossMean cohort t s, .meanFill, .continuous, k⟩
  | .knn =>
    ⟨knnPick cohort selfIdx work t s nS (crossMean cohort t s), .nearest, .continuous, k⟩
  | .boxMuller =>
    ⟨normal k (crossMean cohort t s) (crossVarRaw cohort t s), .normalDraw, .continuous, k + 1⟩

/-- Resolution of one missing cell: the discrete fast path
`(prev + next) / 2 + (Math.random() - 0.5) * 5` when both working-copy
neighbors are present, else degrade to the continuous/estimator path. -/
def imputeRaw (cohort : List Student) (selfIdx : ℕ) (work : Mat) (nT nS : ℕ)
    (algo : Alg) (rand : ℕ → ℚ) (normal : ℕ → ℚ → ℚ → ℚ)
    (t s : ℕ) (mt0 : MissingType) (k : ℕ) : ImpOut :=
  if mt0 = .discrete then
    match prevNeighbor work t s, nextNeighbor work t s nT with
    | some p, some q => ⟨(p + q) / 2 + (rand k - 1 / 2) * 5, .interp, .discrete, k + 1⟩
    | _, _ => estimate cohort selfIdx work nS algo normal t s k
  else estimate cohort selfIdx work nS algo normal t s k

/-- One iteration of the nested `timeSlots.forEach / subjects.forEach`
loops: classify against the pre-pass snapshot, and when missing write
`Math.max(0, Math.min(full, Math.round(imputedVal)))` into the working
copy. -/
def processCell (cohort : List Student) (selfIdx : ℕ) (snap : Mat) (nT : ℕ)
    (subs : List Subject) (algo : Alg) (rand : ℕ → ℚ) (normal : ℕ → ℚ → ℚ → ℚ)
    (st : Mat × ℕ) (c : ℕ × ℕ) : Mat × ℕ :=
  if analyzeMissingType snap c.1 c.2 nT = .none then st
  else
    let out := imputeRaw cohort selfIdx st.1 nT subs.length algo rand normal c.1 c.2
      (analyzeMissingType snap c.1 c.2 nT) st.2
    (updateM st.1 c.1 c.2 (some (clampTo (subs.getD c.2 ⟨0, 0⟩).full out.raw)), out.next)

/-- The cell visiting order of the pass: time slots outer, subjects
inner, both in declared order (row-major linearization of the nested
`forEach` loops). -/
def cellSeq (nT nS : ℕ) : List (ℕ × ℕ) :=
  (List.range nT).flatMap fun t => (List.range nS).map fun s => (t, s)

/-- One student's imputation pass: the working copy starts as a copy of
the snapshot and is folded through every cell. -/
def imputeStudent (cohort : List Student) (selfIdx : ℕ) (nT : ℕ) (subs : List Subject)
    (algo : Alg) (rand : ℕ → ℚ) (normal : ℕ → ℚ → ℚ → ℚ) (snap : Mat) (k : ℕ) : Mat × ℕ :=
  (cellSeq nT subs.length).foldl (processCell cohort selfIdx snap nT subs algo rand normal)
    (snap, k)

/-- The `students.map(student => …)` pass over the cohort, threading the
random-stream index; `cohort` stays the pre-pass snapshot list. -/
def runMatricesAux (cohort : List Student) (nT : ℕ) (subs : List Subject)
    (algo : Alg) (rand : ℕ → ℚ) (normal : ℕ → ℚ → ℚ → ℚ) :
    List Student → ℕ → ℕ → List Mat
  | [], _, _ => []
  | st :: rest, i, k =>
    (imputeStudent cohort i nT subs algo rand normal st.data k).1 ::
      runMatricesAux cohort nT subs algo rand normal rest (i + 1)
        (imputeStudent cohort i nT subs algo rand normal st.data k).2

/-- All students' post-imputation matrices, in cohort order. -/
def runMatrices (cohort : List Student) (nT : ℕ) (subs : List Subject)
    (algo : Alg) (rand : ℕ → ℚ) (normal : ℕ → ℚ → ℚ → ℚ) : List Mat :=
  runMatricesAux cohort nT subs algo rand normal cohort 0 0

/-- Source `tScore` of `recalcScores`: `Σ subjects (val || 0) * sub.weight`. -/
def slotScore (subs : List Subject) (m : Mat) (t : ℕ) : ℚ :=
  (subs.enum.map fun q => (m t q.1).getD 0 * q.2.weight).sum

/-- Source `total` of `recalcScores`: `Σ timeSlots tScore * t.weight`. -/
def weightedScore (ts : List TimeSlot) (subs : List Subject) (m : Mat) : ℚ :=
  (ts.enum.map fun p => slotScore subs m p.1 * p.2.weight).sum

/-- The per-student update of `recalcScores`:
`{ ...s, finalScore: total }`. -/
def setScore (ts : List TimeSlot) (subs : List Subject) (st : Student) : Student :=
  { st with finalScore := weightedScore ts subs st.data }

/-- The sort order of `updated.sort((a, b) => b.finalScore - a.finalScore)`:
`a` may precede `b` exactly when `b.finalScore ≤ a.finalScore`. -/
def scoreDesc (a b : Student) : Bool := decide (b.finalScore ≤ a.finalScore)

/-- Source `recalcScores`: recompute every final score, then stable-sort the
cohort descending by final score. -/
def recalcScores (cohort : List Student) (ts : List TimeSlot) (subs : List Subject) :
    List Student :=
  (cohort.map (setScore ts subs)).mergeSort scoreDesc

/-- Source `handleRunAlgorithm` core: impute every student's matrix, then
rescore and re-rank (`recalcScores(newStudents, …)`). -/
def runEngine (cohort : List Student) (ts : List TimeSlot) (subs : List Subject)
    (algo : Alg) (rand : ℕ → ℚ) (normal : ℕ → ℚ → ℚ → ℚ) : List Student :=
  recalcScores
    ((cohort.zip (runMatrices cohort ts.length subs algo rand normal)).map
      fun p => { p.1 with data := p.2 }) ts subs

/-! ### Concrete fixtures used by witnesses and counterexamples -/

/-- The all-absent default matrix. -/
def mZero : Mat := fun _ _ => Option.none

/-- A constant random stream sitting exactly at the jitter midpoint
(zero jitter). -/
def rZ : ℕ → ℚ := fun _ => 1 / 2

/-- A normal sampler stub returning 0. -/
def nZ : ℕ → ℚ → ℚ → ℚ := fun _ _ _ => 0

/-- A normal sampler stub returning 42. -/
def nW3 : ℕ → ℚ → ℚ → ℚ := fun _ _ _ => 42

/-- One subject series absent at slots 0 and 1, present from slot 2 on:
a run of length 2 touching the first slot. -/
def snapB : Mat := fun t _ => if t ≤ 1 then Option.none else some 50

/-- One subject series with a single interior missing cell at slot 1. -/
def snapW4 : Mat := fun t s => if t = 1 ∧ s = 0 then Option.none else some 50

/-- Student missing subject 0, with subject 1 = 100, at the only slot. -/
def s0C1 : Student := ⟨fun t s => if t = 0 ∧ s = 1 then some 100 else Option.none, 0⟩

/-- Student with subject 0 = 80 and subject 1 absent at the only slot. -/
def s1C1 : Student := ⟨fun t s => if t = 0 ∧ s = 0 then some 80 else Option.none, 0⟩

/-- Two-student cohort where the reference subject is present for only
one of the two students. -/
def cohortC1 : List Student := [s0C1, s1C1]

/-- Two subjects with full marks 200 and 300. -/
def subsC1 : List Subject := [⟨1, 200⟩, ⟨1, 300⟩]

/-- Working series with neighbors 80 (slot 0) and 90 (slot 2) around a
missing slot 1. -/
def workC5 : Mat := fun t _ => if t = 0 then some 80 else if t = 2 then some 90 else Option.none

/-- Working series with only the left neighbor present. -/
def workC5b : Mat := fun t _ => if t = 0 then some 80 else Option.none

/-- Student missing subjects 0 and 1, with subject 2 = 30, at the only
slot. -/
def s0T : Student := ⟨fun t s => if t = 0 ∧ s = 2 then some 30 else Option.none, 0⟩

/-- Student with subjects 0, 1, 2 = 40, 50, 60 at the only slot. -/
def s1T : Student :=
  ⟨fun t s =>
    if t = 0 ∧ s = 0 then some 40
    else if t = 0 ∧ s = 1 then some 50
    else if t = 0 ∧ s = 2 then some 60
    else Option.none, 0⟩

/-- Cohort in which student 0's subjects 0 and 1 both get imputed in the
same pass. -/
def cohortT : List Student := [s0T, s1T]

/-- Three subjects with full marks 1000 (clamping never interferes). -/
def subsT : List Subject := [⟨1, 1000⟩, ⟨1, 1000⟩, ⟨1, 1000⟩]

/-- Student scoring 4 in subject 0 at slot 0, subject 1 absent. -/
def stW : Student := ⟨fun t s => if t = 0 ∧ s = 0 then some 4 else Option.none, 0⟩

/-- One time slot of weight 2. -/
def tsW : List TimeSlot := [⟨2⟩]

/-- Two subjects of weights 3 and 5. -/
def ssW : List Subject := [⟨3, 100⟩, ⟨5, 100⟩]

/-- Student with the constant matrix 10 (gives tied final scores). -/
def stW8 : Student := ⟨fun _ _ => some 10, 0⟩

/-- Student with the constant matrix 80. -/
def stC6 : Student := ⟨fun _ _ => some 80, 0⟩

/-- Three students with identical constant series: 3 valid pairs, zero
variance. -/
def cohortC6x : List Student := [stC6, stC6, stC6]

/-- Two students only: fewer than 3 valid pairs. -/
def cohortC6a : List Student := [stC6, stC6]

/-- Student with the constant matrix 10. -/
def stC6A : Student := ⟨fun _ _ => some 10, 0⟩

/-- Student with the constant matrix 20. -/
def stC6B : Student := ⟨fun _ _ => some 20, 0⟩

/-- Student with the constant matrix 30. -/
def stC6C : Student := ⟨fun _ _ => some 30, 0⟩

/-- Three students whose subject-0 and subject-1 series are identical
but not constant across the cohort. -/
def cohortC6c : List Student := [stC6A, stC6B, stC6C]

/-- Student with every cell absent. -/
def stW3 : Student := ⟨fun _ _ => Option.none, 0⟩

/-- Single-student cohort with every cell absent. -/
def cohortW3 : List Student := [stW3]

/-- One time slot of weight 1. -/
def tsW3 : List TimeSlot := [⟨1⟩]

/-- One subject of weight 1 and full marks 100. -/
def subsW3 : List Subject := [⟨1, 100⟩]

/-! ### Helper lemmas -/

theorem analyze_of_isSome (snap : Mat) (t s nT : ℕ) (h : (snap t s).isSome) :
    analyzeMissingType snap t s nT = MissingType.none := by
  simp [analyzeMissingType, h]

theorem analyze_of_isNone (snap : Mat) (t s nT : ℕ) (h : (snap t s).isNone) :
    analyzeMissingType snap t s nT =
      (if 2 < runLen snap t s nT ∨ t = 0 ∨ t = nT - 1 then MissingType.continuous
       else MissingType.discrete) := by
  have hs : (snap t s).isSome = false := by
    cases hsnap : snap t s <;> simp [hsnap] at h ⊢
  simp [analyzeMissingType, hs]

theorem analyze_ne_none (snap : Mat) (t s nT : ℕ) (h : (snap t s).isNone) :
    analyzeMissingType snap t s nT ≠ MissingType.none := by
  rw [analyze_of_isNone snap t s nT h]
  split <;> simp

theorem foldl_preserve {σ α : Type _} (f : σ → α → σ) (Q : σ → Prop)
    (pres : ∀ st a, Q st → Q (f st a)) :
    ∀ (l : List α) (st : σ), Q st → Q (l.foldl f st)
  | [], _, h => h
  | a :: l, st, h => foldl_preserve f Q pres l (f st a) (pres st a h)

theorem foldl_establish {σ α : Type _} (f : σ → α → σ) (Q : σ → Prop) (x : α)
    (pres : ∀ st a, Q st → Q (f st a)) (est : ∀ st, Q (f st x)) :
    ∀ (l : List α), x ∈ l → ∀ st, Q (l.foldl f st) := by
  intro l hx
  induction l with
  | nil => cases hx
  | cons a l ih =>
    intro st
    rcases List.mem_cons.mp hx with rfl | h
    · exact foldl_preserve f Q pres l (f st x) (est st)
    · exact ih h (f st a)

theorem processCell_other (cohort : List Student) (selfIdx : ℕ) (snap : Mat) (nT : ℕ)
    (subs : List Subject) (algo : Alg) (rand : ℕ → ℚ) (normal : ℕ → ℚ → ℚ → ℚ)
    (st : Mat × ℕ) (c : ℕ × ℕ) (t s : ℕ) (h : ¬(t = c.1 ∧ s = c.2)) :
    (processCell cohort selfIdx snap nT subs algo rand normal st c).1 t s = st.1 t s := by
  rw [processCell]
  split
  · rfl
  · simp only [updateM]
    rw [if_neg h]

theorem processCell_present (cohort : List Student) (selfIdx : ℕ) (snap : Mat) (nT : ℕ)
    (subs : List Subject) (algo : Alg) (rand : ℕ → ℚ) (normal : ℕ → ℚ → ℚ → ℚ)
    (c : ℕ × ℕ) (h : (snap c.1 c.2).isSome) (st : Mat × ℕ) :
    processCell cohort selfIdx snap nT subs algo rand normal st c = st := by
  rw [processCell, if_pos (analyze_of_isSome snap c.1 c.2 nT h)]

theorem processCell_writes (cohort : List Student) (selfIdx : ℕ) (snap : Mat) (nT : ℕ)
    (subs : List Subject) (algo : Alg) (rand : ℕ → ℚ) (normal : ℕ → ℚ → ℚ → ℚ)
    (c : ℕ × ℕ) (h : (snap c.1 c.2).isNone) (st : Mat × ℕ) :
    ∃ z, (processCell cohort selfIdx snap nT subs algo rand normal st c).1 c.1 c.2 =
      some (clampTo (subs.getD c.2 ⟨0, 0⟩).full z) := by
  rw [processCell, if_neg (analyze_ne_none snap c.1 c.2 nT h)]
  exact ⟨(imputeRaw cohort selfIdx st.1 nT subs.length algo rand normal c.1 c.2
      (analyzeMissingType snap c.1 c.2 nT) st.2).raw, by
    simp [updateM]⟩

theorem processCell_cases (cohort : List Student) (selfIdx : ℕ) (snap : Mat) (nT : ℕ)
    (subs : List Subject) (algo : Alg) (rand : ℕ → ℚ) (normal : ℕ → ℚ → ℚ → ℚ)
    (st : Mat × ℕ) (c : ℕ × ℕ) :
    (processCell cohort selfIdx snap nT subs algo rand normal st c).1 c.1 c.2 = st.1 c.1 c.2 ∨
    ∃ z, (processCell cohort selfIdx snap nT subs algo rand normal st c).1 c.1 c.2 =
      some (clampTo (subs.getD c.2 ⟨0, 0⟩).full z) := by
  cases hsnap : snap c.1 c.2 with
  | none =>
    exact Or.inr (processCell_writes cohort selfIdx snap nT subs algo rand normal c
      (by simp [hsnap]) st)
  | some v =>
    exact Or.inl (by
      rw [processCell_present cohort selfIdx snap nT subs algo rand normal c
        (by simp [hsnap]) st])

theorem clampTo_mem (full v : ℚ) (h : 0 ≤ full) :
    0 ≤ clampTo full v ∧ clampTo full v ≤ full :=
  ⟨le_max_left 0 _, max_le h (min_le_left full _)⟩

theorem mem_cellSeq (nT nS t s : ℕ) (ht : t < nT) (hs : s < nS) :
    (t, s) ∈ cellSeq nT nS := by
  rw [cellSeq]
  exact List.mem_flatMap.mpr ⟨t, List.mem_range.mpr ht,
    List.mem_map.mpr ⟨s, List.mem_range.mpr hs, rfl⟩⟩

theorem imputeStudent_present (cohort : List Student) (selfIdx : ℕ) (nT : ℕ)
    (subs : List Subject) (algo : Alg) (rand : ℕ → ℚ) (normal : ℕ → ℚ → ℚ → ℚ)
    (snap : Mat) (k t s : ℕ) (v : ℚ) (hv : snap t s = some v) :
    (imputeStudent cohort selfIdx nT subs algo rand normal snap k).1 t s = some v := by
  rw [imputeStudent]
  refine foldl_preserve (processCell cohort selfIdx snap nT subs algo rand normal)
    (fun st => st.1 t s = some v) ?_ (cellSeq nT subs.length) (snap, k) hv
  intro st c hQ
  obtain ⟨ct, cs⟩ := c
  by_cases hc : t = ct ∧ s = cs
  · obtain ⟨rfl, rfl⟩ := hc
    rw [processCell_present cohort selfIdx snap nT subs algo rand normal (t, s)
      (by simp [hv]) st]
    exact hQ
  · rw [processCell_other cohort selfIdx snap nT subs algo rand normal st (ct, cs) t s hc]
    exact hQ

theorem imputeStudent_absent (cohort : List Student) (selfIdx : ℕ) (nT : ℕ)
    (subs : List Subject) (algo : Alg) (rand : ℕ → ℚ) (normal : ℕ → ℚ → ℚ → ℚ)
    (snap : Mat) (k t s : ℕ) (ht : t < nT) (hs : s < subs.length)
    (hv : (snap t s).isNone) :
    ∃ z, (imputeStudent cohort selfIdx nT subs algo rand normal snap k).1 t s =
      some (clampTo (subs.getD s ⟨0, 0⟩).full z) := by
  rw [imputeStudent]
  refine foldl_establish (processCell cohort selfIdx snap nT subs algo rand normal)
    (fun st => ∃ z, st.1 t s = some (clampTo (subs.getD s ⟨0, 0⟩).full z)) (t, s)
    ?_ ?_ (cellSeq nT subs.length) (mem_cellSeq nT subs.length t s ht hs) (snap, k)
  · intro st c hQ
    obtain ⟨ct, cs⟩ := c
    by_cases hc : t = ct ∧ s = cs
    · obtain ⟨rfl, rfl⟩ := hc
      rcases processCell_cases cohort selfIdx snap nT subs algo rand normal st (t, s) with
        heq | ⟨z, hz⟩
      · rcases hQ with ⟨z, hz⟩
        exact ⟨z, heq.trans hz⟩
      · exact ⟨z, hz⟩
    · rcases hQ with ⟨z, hz⟩
      refine ⟨z, ?_⟩
      rw [processCell_other cohort selfIdx snap nT subs algo rand normal st (ct, cs) t s hc]
      exact hz
  · intro st
    exact processCell_writes cohort selfIdx snap nT subs algo rand normal (t, s) hv st

theorem runMatricesAux_range (cohort : List Student) (nT : ℕ) (subs : List Subject)
    (algo : Alg) (rand : ℕ → ℚ) (normal : ℕ → ℚ → ℚ → ℚ)
    (hfull : ∀ sub ∈ subs, 0 ≤ sub.full)
    (hdata : ∀ st ∈ cohort, ∀ t, t < nT → ∀ s, s < subs.length → ∀ v,
      st.data t s = some v → 0 ≤ v ∧ v ≤ (subs.getD s ⟨0, 0⟩).full) :
    ∀ (rest : List Student), (∀ st ∈ rest, st ∈ cohort) → ∀ (i k : ℕ),
      ∀ m ∈ runMatricesAux cohort nT subs algo rand normal rest i k,
        ∀ t, t < nT → ∀ s, s < subs.length →
          ∃ v, m t s = some v ∧ 0 ≤ v ∧ v ≤ (subs.getD s ⟨0, 0⟩).full := by
  intro rest
  induction rest with
  | nil =>
    intro _ i k m hm
    rw [runMatricesAux] at hm
    cases hm
  | cons st rest ih =>
    intro hsub i k m hm t ht s hs
    rw [runMatricesAux] at hm
    rcases List.mem_cons.mp hm with rfl | hm
    · cases hsnap : st.data t s with
      | some v =>
        exact ⟨v, imputeStudent_present cohort i nT subs algo rand normal st.data k t s v hsnap,
          hdata st (hsub st (List.mem_cons_self st rest)) t ht s hs v hsnap⟩
      | none =>
        obtain ⟨z, hz⟩ := imputeStudent_absent cohort i nT subs algo rand normal st.data k t s
          ht hs (by simp [hsnap])
        have h0 : 0 ≤ (subs.getD s ⟨0, 0⟩).full := by
          have hmem : subs.getD s ⟨0, 0⟩ ∈ subs := by
            rw [List.getD_eq_getElem subs ⟨0, 0⟩ hs]
            exact List.getElem_mem hs
          exact hfull _ hmem
        exact ⟨_, hz, (clampTo_mem _ z h0).1, (clampTo_mem _ z h0).2⟩
    · exact ih (fun st' h => hsub st' (List.mem_cons_of_mem st h)) (i + 1) _ m hm t ht s hs

theorem scoreDesc_trans : ∀ x y z : Student,
    scoreDesc x y = true → scoreDesc y z = true → scoreDesc x z = true := by
  intro x y z hxy hyz
  simp only [scoreDesc, decide_eq_true_eq] at *
  exact le_trans hyz hxy

theorem scoreDesc_total : ∀ x y : Student, (scoreDesc x y || scoreDesc y x) = true := by
  intro x y
  simp only [scoreDesc, Bool.or_eq_true, decide_eq_true_eq]
  exact le_total y.finalScore x.finalScore

theorem mem_recalc_of (cohort : List Student) (ts : List TimeSlot) (subs : List Subject)
    (st : Student) (hst : st ∈ recalcScores cohort ts subs) :
    ∃ st0 ∈ cohort, st = setScore ts subs st0 := by
  have h : st ∈ cohort.map (setScore ts subs) :=
    ((List.mergeSort_perm (cohort.map (setScore ts subs)) scoreDesc).mem_iff).mp hst
  rcases List.mem_map.mp h with ⟨st0, h0, rfl⟩
  exact ⟨st0, h0, rfl⟩

theorem estimate_regression (cohort : List Student) (selfIdx : ℕ) (work : Mat) (nS : ℕ)
    (normal : ℕ → ℚ → ℚ → ℚ) (t s k : ℕ) (r : ℕ)
    (href : findRefSub work t s nS = some r) :
    estimate cohort selfIdx work nS Alg.regression normal t s k =
      ⟨((work t r).getD 0) *
        (crossMean cohort t s /
          (if refMeanCode cohort t r = 0 then 1 else refMeanCode cohort t r)),
       Method.regressionVia r, MissingType.continuous, k⟩ := by
  simp [estimate, href]

theorem corrDenA_nonneg (cohort : List Student) (a b t : ℕ) :
    0 ≤ corrDenA cohort a b t := by
  refine List.sum_nonneg ?_
  intro x hx
  rcases List.mem_map.mp hx with ⟨p, -, rfl⟩
  positivity

/-! ### Claim theorems -/

/-- C4: `analyzeMissingType` returns `none` iff the cell at `timeIndex`
is present; for an absent cell it returns `continuous` iff the maximal
contiguous absent run through the cell is longer than 2 or `timeIndex`
is the first or last slot, and `discrete` otherwise; in particular a
single missing cell strictly between two present cells of the same
subject is classified `discrete`. -/
theorem classify_spec (snap : Mat) (t s nT : ℕ) :
    (analyzeMissingType snap t s nT = MissingType.none ↔ (snap t s).isSome) ∧
    ((snap t s).isNone →
      ((analyzeMissingType snap t s nT = MissingType.continuous ↔
        (2 < runLen snap t s nT ∨ t = 0 ∨ t = nT - 1)) ∧
      (analyzeMissingType snap t s nT = MissingType.discrete ↔
        ¬(2 < runLen snap t s nT ∨ t = 0 ∨ t = nT - 1)))) ∧
    (0 < t → t + 1 < nT → (snap t s).isNone →
      (snap (t - 1) s).isSome → (snap (t + 1) s).isSome →
      analyzeMissingType snap t s nT = MissingType.discrete) := by
  refine ⟨?_, ?_, ?_⟩
  · cases hsnap : snap t s with
    | none =>
      rw [analyze_of_isNone snap t s nT (by simp [hsnap])]
      split <;> simp [hsnap]
    | some v => simp [analyze_of_isSome snap t s nT (by simp [hsnap]), hsnap]
  · intro h
    rw [analyze_of_isNone snap t s nT h]
    split <;> simp_all
  · intro ht0 htn h hp hq
    rw [analyze_of_isNone snap t s nT h]
    have hback : missingBack snap s t = 0 := by
      obtain ⟨i, rfl⟩ : ∃ i, t = i + 1 := ⟨t - 1, by omega⟩
      have : (snap i s).isNone = false := by
        simp only [Nat.add_sub_cancel] at hp
        cases hsnap : snap i s <;> simp [hsnap] at hp ⊢
      simp [missingBack, this]
    have hfwd : missingFwd snap s nT (t + 1) = 0 := by
      have hfuel : ∃ f, nT - (t + 1) = f + 1 := ⟨nT - (t + 1) - 1, by omega⟩
      obtain ⟨f, hf⟩ := hfuel
      have : (snap (t + 1) s).isNone = false := by
        cases hsnap : snap (t + 1) s <;> simp [hsnap] at hq ⊢
      simp [missingFwd, hf, missingFwdAux, this]
    rw [if_neg]
    simp [runLen, hback, hfwd]
    omega

/-- C4 witness: in a 3-slot series with only slot 1 missing, the cell is
classified `discrete`; and a boundary missing cell is `continuous`. -/
theorem classify_spec_witness :
    (snapW4 1 0).isNone = true ∧
    analyzeMissingType snapW4 1 0 3 = MissingType.discrete ∧
    analyzeMissingType snapB 0 0 6 = MissingType.continuous := by
  refine ⟨by decide, (classify_spec snapW4 1 0 3).2.2 (by decide) (by decide) (by decide)
    (by decide) (by decide), ?_⟩
  exact ((classify_spec snapB 0 0 6).2.1 (by decide)).1.mpr (Or.inr (Or.inl rfl))

/-- C2 counterexample: a run of length 2 touching the first slot
(slots 0 and 1 absent out of 6).  The claim says every cell of a
boundary-touching run is `continuous`, but the code classifies the cell
at index 1 as `discrete` — the edge test looks at the cell's own index,
not at the run's extent. -/
theorem boundary_run_counterexample :
    (snapB 0 0).isNone = true ∧ runLen snapB 1 0 6 = 2 ∧
    analyzeMissingType snapB 1 0 6 = MissingType.discrete ∧
    MissingType.discrete ≠ MissingType.continuous := by decide

/-- C2 amended: an absent cell whose own index is the first or last
slot is always classified `continuous`; an absent cell with run length
≤ 2 whose own index is neither the first nor the last slot is
classified `discrete`, even when its run touches a boundary. -/
theorem boundary_cell_amended (snap : Mat) (t s nT : ℕ) (hnone : (snap t s).isNone) :
    ((t = 0 ∨ t = nT - 1) → analyzeMissingType snap t s nT = MissingType.continuous) ∧
    (runLen snap t s nT ≤ 2 → t ≠ 0 → t ≠ nT - 1 →
      analyzeMissingType snap t s nT = MissingType.discrete) := by
  rw [analyze_of_isNone snap t s nT hnone]
  constructor
  · intro h
    rw [if_pos (Or.inr h)]
  · intro hlen h0 hn
    rw [if_neg]
    push_neg
    exact ⟨by omega, h0, hn⟩

/-- C2 amended witness: the boundary cell of the length-2 boundary run
is `continuous`, its interior mate is `discrete`. -/
theorem boundary_cell_amended_witness :
    analyzeMissingType snapB 0 0 6 = MissingType.continuous ∧
    analyzeMissingType snapB 1 0 6 = MissingType.discrete := by
  constructor
  · exact (boundary_cell_amended snapB 0 0 6 (by decide)).1 (Or.inl rfl)
  · exact (boundary_cell_amended snapB 1 0 6 (by decide)).2 (by decide) (by decide) (by decide)

/-- C1 counterexample: cohort of two students at one slot; subject 0 is
present only for student 1 (value 80) and subject 1 only for student 0
(value 100).  The spec's referenceMean — the mean over students with
the reference subject present — is `crossMean cohortC1 0 1 = 100`,
so the claimed imputed value is `100 * (80 / 100) = 80`; the code
divides the reference sum by the whole cohort size (100 / 2 = 50) and
writes `100 * (80 / 50) = 160`. -/
theorem regression_refmean_counterexample :
    ((runMatrices cohortC1 1 subsC1 Alg.regression rZ nZ).getD 0 mZero) 0 0 = some 160 ∧
    crossMean cohortC1 0 0 = 80 ∧
    crossMean cohortC1 0 1 = 100 ∧
    s0C1.data 0 1 = some 100 ∧
    clampTo 200 (100 * (80 / 100)) = 80 ∧
    some (160 : ℚ) ≠ some (80 : ℚ) := by
  refine ⟨?_, ?_, ?_, by decide, ?_, by norm_num⟩
  · norm_num +decide [runMatrices, runMatricesAux, imputeStudent, cellSeq, processCell,
      imputeRaw, estimate, analyzeMissingType, runLen, missingBack, missingFwd, missingFwdAux,
      crossVals, crossMean, refMeanCode, findRefSub, prevNeighbor, nextNeighbor,
      updateM, clampTo, jsRound, cohortC1, s0C1, s1C1, subsC1, rZ, nZ, mZero,
      List.range_succ, List.filterMap_cons, List.find?_cons_of_pos, List.find?_cons_of_neg]
  · norm_num [crossMean, crossVals, cohortC1, s0C1, s1C1, List.filterMap_cons]
  · norm_num [crossMean, crossVals, cohortC1, s0C1, s1C1, List.filterMap_cons]
  · norm_num [clampTo, jsRound]

/-- C1 amended: for a missing cell that reaches the estimator path
(classified `continuous`, or `discrete` with a working-copy neighbor
absent), under `regression` with a reference subject `r` found in the
working copy, the value before rounding and clamping is
`refVal * (mean / refMean)` where `refVal` is the working-copy value of
`r`, `mean` is the mean of the present snapshot values of the target
subject, and `refMean` is the sum of the present snapshot values of `r`
divided by the whole cohort size (not by the number of students with
`r` present), with 1 substituted when that quotient is 0. -/
theorem regression_scaling_amended (cohort : List Student) (selfIdx : ℕ) (work : Mat)
    (nT nS : ℕ) (rand : ℕ → ℚ) (normal : ℕ → ℚ → ℚ → ℚ) (t s k : ℕ)
    (mt0 : MissingType) (r : ℕ)
    (hpath : mt0 ≠ MissingType.discrete ∨
      prevNeighbor work t s = Option.none ∨ nextNeighbor work t s nT = Option.none)
    (href : findRefSub work t s nS = some r) :
    (imputeRaw cohort selfIdx work nT nS Alg.regression rand normal t s mt0 k).raw =
      ((work t r).getD 0) *
        (crossMean cohort t s /
          (if refMeanCode cohort t r = 0 then 1 else refMeanCode cohort t r)) ∧
    (imputeRaw cohort selfIdx work nT nS Alg.regression rand normal t s mt0 k).method =
      Method.regressionVia r := by
  have hfall : imputeRaw cohort selfIdx work nT nS Alg.regression rand normal t s mt0 k =
      estimate cohort selfIdx work nS Alg.regression normal t s k := by
    rcases hpath with h | h | h
    · rw [imputeRaw, if_neg h]
    · rw [imputeRaw]
      split
      · rw [h]
      · rfl
    · rw [imputeRaw]
      split
      · cases hp : prevNeighbor work t s
        · rfl
        · rw [h]
      · rfl
  rw [hfall, estimate_regression cohort selfIdx work nS normal t s k r href]
  exact ⟨rfl, rfl⟩

/-- C1 amended witness: on the two-student fixture the regression
branch produces the raw value 160 = 100 * (80 / 50). -/
theorem regression_scaling_amended_witness :
    findRefSub s0C1.data 0 0 2 = some 1 ∧
    (imputeRaw cohortC1 0 s0C1.data 1 2 Alg.regression rZ nZ 0 0
      MissingType.continuous 0).raw = 160 := by
  have href : findRefSub s0C1.data 0 0 2 = some 1 := by decide
  refine ⟨href, ?_⟩
  rw [(regression_scaling_amended cohortC1 0 s0C1.data 1 2 rZ nZ 0 0 0
    MissingType.continuous 1 (Or.inl (by decide)) href).1]
  norm_num [s0C1, crossMean, crossVals, refMeanCode, cohortC1, s1C1, List.filterMap_cons]

/-- C5: a cell classified `discrete` whose working-copy neighbors are
both present is imputed as `(prev + next) / 2` plus the jitter
`(rand - 0.5) * 5`, whose magnitude is at most 2.5 when the draw lies
in `[0, 1)`, with method `interp` (temporal interpolation); when either
neighbor is absent the cell is handled exactly as a `continuous` cell
by the configured estimator. -/
theorem discrete_interpolation (cohort : List Student) (selfIdx : ℕ) (work : Mat)
    (nT nS : ℕ) (algo : Alg) (rand : ℕ → ℚ) (normal : ℕ → ℚ → ℚ → ℚ) (t s k : ℕ) :
    (∀ p q : ℚ, prevNeighbor work t s = some p → nextNeighbor work t s nT = some q →
      (imputeRaw cohort selfIdx work nT nS algo rand normal t s MissingType.discrete k).raw =
        (p + q) / 2 + (rand k - 1 / 2) * 5 ∧
      (imputeRaw cohort selfIdx work nT nS algo rand normal t s MissingType.discrete k).method =
        Method.interp ∧
      (0 ≤ rand k → rand k < 1 → |(rand k - 1 / 2) * 5| ≤ 5 / 2)) ∧
    (prevNeighbor work t s = Option.none ∨ nextNeighbor work t s nT = Option.none →
      imputeRaw cohort selfIdx work nT nS algo rand normal t s MissingType.discrete k =
        imputeRaw cohort selfIdx work nT nS algo rand normal t s MissingType.continuous k) := by
  constructor
  · intro p q hp hq
    rw [imputeRaw, if_pos rfl, hp, hq]
    refine ⟨rfl, rfl, ?_⟩
    intro h0 h1
    rw [abs_le]
    constructor <;> nlinarith
  · intro h
    have hcont : imputeRaw cohort selfIdx work nT nS algo rand normal t s
        MissingType.continuous k = estimate cohort selfIdx work nS algo normal t s k := by
      rw [imputeRaw, if_neg (by decide)]
    rw [hcont, imputeRaw, if_pos rfl]
    rcases h with h | h
    · rw [h]
    · cases hp : prevNeighbor work t s
      · rfl
      · rw [h]

/-- C5 witness: neighbors 80 and 90 with the zero-jitter stream give
raw value 85 and method `interp`; rounding and clamping keep 85; with
the right neighbor absent the discrete cell is treated as continuous. -/
theorem discrete_interpolation_witness :
    prevNeighbor workC5 1 0 = some 80 ∧
    nextNeighbor workC5 1 0 3 = some 90 ∧
    (imputeRaw [] 0 workC5 3 1 Alg.boxMuller rZ nZ 1 0 MissingType.discrete 0).raw = 85 ∧
    (imputeRaw [] 0 workC5 3 1 Alg.boxMuller rZ nZ 1 0 MissingType.discrete 0).method =
      Method.interp ∧
    clampTo 100 85 = 85 ∧
    imputeRaw [] 0 workC5b 3 1 Alg.boxMuller rZ nZ 1 0 MissingType.discrete 0 =
      imputeRaw [] 0 workC5b 3 1 Alg.boxMuller rZ nZ 1 0 MissingType.continuous 0 := by
  have hp : prevNeighbor workC5 1 0 = some 80 := by decide
  have hq : nextNeighbor workC5 1 0 3 = some 90 := by decide
  obtain ⟨hraw, hm, -⟩ :=
    (discrete_interpolation [] 0 workC5 3 1 Alg.boxMuller rZ nZ 1 0 0).1 80 90 hp hq
  refine ⟨hp, hq, ?_, hm, by norm_num [clampTo, jsRound], ?_⟩
  · rw [hraw]
    norm_num [rZ]
  · exact (discrete_interpolation [] 0 workC5b 3 1 Alg.boxMuller rZ nZ 1 0 0).2
      (Or.inr (by decide))

set_option maxHeartbeats 2000000 in
/-- C10: in the cohortT fixture, student 0's subject 0 is imputed first
(value 27, scaled from subject 2); when subject 1 is then processed,
the working-copy reference search finds subject 0 — whose value 27 was
imputed earlier in the same pass — while a snapshot search would find
subject 2; the written value 68 matches scaling from the imputed 27,
and differs from the 33 a snapshot read would produce. -/
theorem working_copy_read :
    ((runMatrices cohortT 1 subsT Alg.regression rZ nZ).getD 0 mZero) 0 0 = some 27 ∧
    ((runMatrices cohortT 1 subsT Alg.regression rZ nZ).getD 0 mZero) 0 1 = some 68 ∧
    findRefSub (updateM s0T.data 0 0 (some 27)) 0 1 3 = some 0 ∧
    findRefSub s0T.data 0 1 3 = some 2 ∧
    clampTo 1000 ((27 : ℚ) * (50 / 20)) = 68 ∧
    clampTo 1000 ((30 : ℚ) * (50 / 45)) = 33 ∧
    (68 : ℚ) ≠ 33 := by
  refine ⟨?_, ?_, by decide, by decide, ?_, ?_, by norm_num⟩
  · norm_num +decide [runMatrices, runMatricesAux, imputeStudent, cellSeq, processCell,
      imputeRaw, estimate, analyzeMissingType, runLen, missingBack, missingFwd, missingFwdAux,
      crossVals, crossMean, refMeanCode, findRefSub, prevNeighbor, nextNeighbor,
      updateM, clampTo, jsRound, cohortT, s0T, s1T, subsT, rZ, nZ, mZero,
      List.range_succ, List.filterMap_cons, List.find?_cons_of_pos, List.find?_cons_of_neg]
  · norm_num +decide [runMatrices, runMatricesAux, imputeStudent, cellSeq, processCell,
      imputeRaw, estimate, analyzeMissingType, runLen, missingBack, missingFwd, missingFwdAux,
      crossVals, crossMean, refMeanCode, findRefSub, prevNeighbor, nextNeighbor,
      updateM, clampTo, jsRound, cohortT, s0T, s1T, subsT, rZ, nZ, mZero,
      List.range_succ, List.filterMap_cons, List.find?_cons_of_pos, List.find?_cons_of_neg]
  · norm_num [clampTo, jsRound]
  · norm_num [clampTo, jsRound]

/-- C3: when every present cell lies in `[0, fullMarks]` (and full
marks are nonnegative), after the engine runs every cell of every
student's matrix is present and lies in `[0, fullMarks]`: present cells
are preserved, and every absent cell is written exactly once with a
value rounded and clamped to `[0, fullMarks]`. -/
theorem imputation_completes (cohort : List Student) (ts : List TimeSlot)
    (subs : List Subject) (algo : Alg) (rand : ℕ → ℚ) (normal : ℕ → ℚ → ℚ → ℚ)
    (hfull : ∀ sub ∈ subs, 0 ≤ sub.full)
    (hdata : ∀ st ∈ cohort, ∀ t, t < ts.length → ∀ s, s < subs.length → ∀ v,
      st.data t s = some v → 0 ≤ v ∧ v ≤ (subs.getD s ⟨0, 0⟩).full) :
    ∀ st ∈ runEngine cohort ts subs algo rand normal, ∀ t, t < ts.length →
      ∀ s, s < subs.length →
        ∃ v, st.data t s = some v ∧ 0 ≤ v ∧ v ≤ (subs.getD s ⟨0, 0⟩).full := by
  intro st hst t ht s hs
  rcases mem_recalc_of _ ts subs st hst with ⟨st1, h1, rfl⟩
  rcases List.mem_map.mp h1 with ⟨p, hp, rfl⟩
  exact runMatricesAux_range cohort ts.length subs algo rand normal hfull hdata cohort
    (fun _ h => h) 0 0 p.2 (List.of_mem_zip hp).2 t ht s hs

/-- C3 witness: a single student whose only cell is absent; after the
Box-Muller run with a sampler stub every cell is present and within
`[0, 100]`. -/
theorem imputation_completes_witness :
    (∀ sub ∈ subsW3, 0 ≤ sub.full) ∧
    (∀ st ∈ runEngine cohortW3 tsW3 subsW3 Alg.boxMuller rZ nW3, ∀ t, t < tsW3.length →
      ∀ s, s < subsW3.length →
        ∃ v, st.data t s = some v ∧ 0 ≤ v ∧ v ≤ (subsW3.getD s ⟨0, 0⟩).full) := by
  have hfull : ∀ sub ∈ subsW3, 0 ≤ sub.full := by
    intro sub hsub
    rcases List.mem_singleton.mp hsub with rfl
    norm_num
  refine ⟨hfull, imputation_completes cohortW3 tsW3 subsW3 Alg.boxMuller rZ nW3 hfull ?_⟩
  intro st hst t ht s hs v hv
  rcases List.mem_singleton.mp hst with rfl
  simp [stW3] at hv

/-- C7: every student in the output of the scoring pass carries the
final score `Σ slots (Σ subjects (value-or-0 * subject weight)) * slot
weight` computed over that student's own (unchanged) matrix. -/
theorem aggregator_formula (cohort : List Student) (ts : List TimeSlot)
    (subs : List Subject) :
    ∀ st ∈ recalcScores cohort ts subs,
      st.finalScore =
        (ts.enum.map fun p =>
          ((subs.enum.map fun q => (st.data p.1 q.1).getD 0 * q.2.weight).sum) * p.2.weight).sum := by
  intro st hst
  rcases mem_recalc_of cohort ts subs st hst with ⟨st0, -, rfl⟩
  rfl

/-- C7 witness: one student scoring 4 in a weight-3 subject (other
subject absent, counted as 0) at a weight-2 slot gets final score
`(4 * 3 + 0 * 5) * 2 = 24`. -/
theorem aggregator_formula_witness :
    setScore tsW ssW stW ∈ recalcScores [stW] tsW ssW ∧
    (setScore tsW ssW stW).finalScore = 24 := by
  have hm : recalcScores [stW] tsW ssW = [setScore tsW ssW stW] := by
    rw [recalcScores, List.map_singleton]
    exact List.mergeSort_of_sorted (List.pairwise_singleton _ _)
  have hmem : setScore tsW ssW stW ∈ recalcScores [stW] tsW ssW := by
    rw [hm]
    exact List.mem_singleton.mpr rfl
  refine ⟨hmem, ?_⟩
  rw [aggregator_formula [stW] tsW ssW _ hmem]
  norm_num [tsW, ssW, stW, setScore, List.enum, List.enumFrom]

/-- C8: after the scoring pass the cohort is pairwise non-increasing by
final score, and the sort is stable: any two (rescored) students that
appear in a given order with equal final scores in the pre-sort list
appear in that same order in the output. -/
theorem ranking_sorted_stable (cohort : List Student) (ts : List TimeSlot)
    (subs : List Subject) :
    (recalcScores cohort ts subs).Pairwise (fun a b => b.finalScore ≤ a.finalScore) ∧
    (∀ a b : Student, [a, b].Sublist (cohort.map (setScore ts subs)) →
      a.finalScore = b.finalScore → [a, b].Sublist (recalcScores cohort ts subs)) := by
  constructor
  · exact (List.sorted_mergeSort scoreDesc_trans scoreDesc_total
      (cohort.map (setScore ts subs))).imp
      (by intro a b h; exact decide_eq_true_eq.mp h)
  · intro a b hsub heq
    refine List.sublist_mergeSort scoreDesc_trans scoreDesc_total ?_ hsub
    refine List.pairwise_cons.mpr ⟨?_, List.pairwise_singleton _ _⟩
    intro b' hb'
    rcases List.mem_singleton.mp hb' with rfl
    simp [scoreDesc, heq.ge]

/-- C8 witness: two identical students tie on final score and keep
their original order in the ranked output. -/
theorem ranking_sorted_stable_witness :
    [setScore tsW ssW stW8, setScore tsW ssW stW8].Sublist
      ([stW8, stW8].map (setScore tsW ssW)) ∧
    (setScore tsW ssW stW8).finalScore = (setScore tsW ssW stW8).finalScore ∧
    [setScore tsW ssW stW8, setScore tsW ssW stW8].Sublist
      (recalcScores [stW8, stW8] tsW ssW) := by
  have hsub : [setScore tsW ssW stW8, setScore tsW ssW stW8].Sublist
      ([stW8, stW8].map (setScore tsW ssW)) := by
    rw [List.map_cons, List.map_singleton]
  exact ⟨hsub, rfl,
    (ranking_sorted_stable [stW8, stW8] tsW ssW).2 _ _ hsub rfl⟩

/-- C9: running the scoring pass twice on the same input yields exactly
the same list (same final scores, same order) as running it once. -/
theorem rescoring_idempotent (cohort : List Student) (ts : List TimeSlot)
    (subs : List Subject) :
    recalcScores (recalcScores cohort ts subs) ts subs = recalcScores cohort ts subs := by
  have hfix : ∀ st ∈ recalcScores cohort ts subs, setScore ts subs st = st := by
    intro st hst
    rcases mem_recalc_of cohort ts subs st hst with ⟨st0, -, rfl⟩
    rfl
  calc recalcScores (recalcScores cohort ts subs) ts subs
      = ((recalcScores cohort ts subs).map (setScore ts subs)).mergeSort scoreDesc := rfl
    _ = (recalcScores cohort ts subs).mergeSort scoreDesc := by
        rw [List.map_congr_left hfix]
        simp
    _ = recalcScores cohort ts subs :=
        List.mergeSort_of_sorted
          (List.sorted_mergeSort scoreDesc_trans scoreDesc_total _)

/-- C6 counterexample: three students with the identical constant
series 80 for both subjects — at least 3 valid pairs and scoreA equals
scoreB on every pair, yet the correlation is 0, not 1, because the
zero-variance guard fires first. -/
theorem correlation_constant_counterexample :
    validPairs cohortC6x 0 1 0 = [(80, 80), (80, 80), (80, 80)] ∧
    calculateCorrelation cohortC6x 0 1 0 = 0 ∧ (0 : ℝ) ≠ 1 := by
  have hvp : validPairs cohortC6x 0 1 0 = [(80, 80), (80, 80), (80, 80)] := by
    simp [validPairs, cohortC6x, stC6, List.filterMap_cons]
  have hden : corrDenA cohortC6x 0 1 0 = 0 := by
    norm_num [corrDenA, corrMeanA, hvp]
  refine ⟨hvp, ?_, by norm_num⟩
  by_cases hl : (validPairs cohortC6x 0 1 0).length < 3
  · rw [calculateCorrelation, if_pos hl]
  · rw [calculateCorrelation, if_neg hl, if_pos (Or.inl hden)]

/-- C6 amended: the correlation is exactly 0 whenever fewer than 3
valid pairs exist, and exactly 0 whenever either deviation sum is 0;
and it is exactly 1 for identical series over at least 3 valid pairs
provided the common series is not constant (nonzero variance). -/
theorem correlation_guards_amended :
    (∀ (cohort : List Student) (a b t : ℕ), (validPairs cohort a b t).length < 3 →
      calculateCorrelation cohort a b t = 0) ∧
    (∀ (cohort : List Student) (a b t : ℕ),
      corrDenA cohort a b t = 0 ∨ corrDenB cohort a b t = 0 →
      calculateCorrelation cohort a b t = 0) ∧
    (∀ (cohort : List Student) (a b t : ℕ), 3 ≤ (validPairs cohort a b t).length →
      (∀ p ∈ validPairs cohort a b t, p.1 = p.2) →
      corrDenA cohort a b t ≠ 0 →
      calculateCorrelation cohort a b t = 1) := by
  refine ⟨?_, ?_, ?_⟩
  · intro cohort a b t h
    rw [calculateCorrelation, if_pos h]
  · intro cohort a b t h
    by_cases hl : (validPairs cohort a b t).length < 3
    · rw [calculateCorrelation, if_pos hl]
    · rw [calculateCorrelation, if_neg hl, if_pos h]
  · intro cohort a b t hlen hid hden
    have hmap : (validPairs cohort a b t).map Prod.fst =
        (validPairs cohort a b t).map Prod.snd :=
      List.map_congr_left hid
    have hmB : corrMeanB cohort a b t = corrMeanA cohort a b t := by
      rw [corrMeanB, corrMeanA, hmap]
    have hnum : corrNum cohort a b t = corrDenA cohort a b t := by
      rw [corrNum, corrDenA]
      refine congrArg List.sum (List.map_congr_left ?_)
      intro p hp
      rw [hmB, ← hid p hp, sq]
    have hdenB : corrDenB cohort a b t = corrDenA cohort a b t := by
      rw [corrDenB, corrDenA]
      refine congrArg List.sum (List.map_congr_left ?_)
      intro p hp
      rw [hmB, ← hid p hp]
    have hpos : (0 : ℝ) < (corrDenA cohort a b t : ℝ) := by
      have hge := corrDenA_nonneg cohort a b t
      have hne : (corrDenA cohort a b t : ℝ) ≠ 0 := by
        exact_mod_cast hden
      have hge2 : (0 : ℝ) ≤ (corrDenA cohort a b t : ℝ) := by exact_mod_cast hge
      exact lt_of_le_of_ne hge2 (Ne.symm hne)
    rw [calculateCorrelation, if_neg (by omega), if_neg (by
      rw [hdenB]
      tauto), hnum, hdenB]
    rw [Real.sqrt_mul_self hpos.le]
    exact div_self hpos.ne'

/-- C6 amended witness: a 2-student cohort gives 0 (too few pairs), a
constant identical series gives 0 (zero variance), and the identical
non-constant series 10, 20, 30 gives exactly 1. -/
theorem correlation_guards_amended_witness :
    (validPairs cohortC6a 0 1 0).length < 3 ∧
    calculateCorrelation cohortC6a 0 1 0 = 0 ∧
    corrDenA cohortC6x 0 1 0 = 0 ∧
    calculateCorrelation cohortC6x 0 1 0 = 0 ∧
    validPairs cohortC6c 0 1 0 = [(10, 10), (20, 20), (30, 30)] ∧
    corrDenA cohortC6c 0 1 0 = 200 ∧
    calculateCorrelation cohortC6c 0 1 0 = 1 := by
  have hvpa : validPairs cohortC6a 0 1 0 = [(80, 80), (80, 80)] := by
    simp [validPairs, cohortC6a, stC6, List.filterMap_cons]
  have hlena : (validPairs cohortC6a 0 1 0).length < 3 := by rw [hvpa]; norm_num
  have hvpx : validPairs cohortC6x 0 1 0 = [(80, 80), (80, 80), (80, 80)] := by
    simp [validPairs, cohortC6x, stC6, List.filterMap_cons]
  have hdenx : corrDenA cohortC6x 0 1 0 = 0 := by
    norm_num [corrDenA, corrMeanA, hvpx]
  have hvpc : validPairs cohortC6c 0 1 0 = [(10, 10), (20, 20), (30, 30)] := by
    simp [validPairs, cohortC6c, stC6A, stC6B, stC6C, List.filterMap_cons]
  have hdenc : corrDenA cohortC6c 0 1 0 = 200 := by
    norm_num [corrDenA, corrMeanA, hvpc]
  refine ⟨hlena, correlation_guards_amended.1 cohortC6a 0 1 0 hlena,
    hdenx, correlation_guards_amended.2.1 cohortC6x 0 1 0 (Or.inl hdenx),
    hvpc, hdenc, ?_⟩
  refine correlation_guards_amended.2.2 cohortC6c 0 1 0 (by rw [hvpc]; norm_num) ?_
    (by rw [hdenc]; norm_num)
  intro p hp
  rw [hvpc] at hp
  simp only [List.mem_cons, List.not_mem_nil, or_false] at hp
  rcases hp with rfl | rfl | rfl <;> rfl

end StochEval
